import Mathlib

/-!
Shallow embedding of `src/string_builder.h` (the Fluent `string_builder_t`
dynamic string builder) and proofs about its operations.

Modelling conventions:
* the heap region behind `buf` is an `Option (List Char)`: `none` is a `NULL`
  pointer, `some l` is an allocated region of `l.length` bytes;
* `size_t` values (`idx`, `capacity`) are `Nat`;
* the `double` growth factor is an exact rational `ℚ`; the C conversion
  `size_t = double` truncates toward zero, i.e. `Int.floor` for non-negative
  values;
* an out-of-bounds read or write (undefined behaviour in C) makes the
  operation return `none`;
* `malloc`/`realloc` for the builder itself always succeed (the C code calls
  `exit(1)` on failure there); the one allocation whose failure is observable,
  the copy in `collect_string_builder`, takes an explicit `allocOk : Bool`.
-/

namespace StringBuilder

/-- The byte `'\0'`, used both as the terminator and as the content of
freshly allocated (uninitialised) bytes. -/
def nulByte : Char := Char.ofNat 0

/-- Embedding of `string_builder_t`: buffer, current index (length),
capacity, and growth factor. -/
structure string_builder_t where
  buf : Option (List Char)
  idx : Nat
  capacity : Nat
  growth_factor : ℚ
deriving DecidableEq, Repr

/-- `init_string_builder`: allocates `capacity + 1` bytes and sets `idx = 0`. -/
def init_string_builder (capacity : Nat) (growth_factor : ℚ) : string_builder_t :=
  { buf := some (List.replicate (capacity + 1) nulByte)
    idx := 0
    capacity := capacity
    growth_factor := growth_factor }

/-- The capacity update of `reallocate_string_builder`:
`builder->capacity *= builder->growth_factor` multiplies in `double` and
converts back to `size_t` by truncation toward zero (floor, both factors
being non-negative). -/
def grow_capacity (c : Nat) (f : ℚ) : Nat := (Int.floor ((c : ℚ) * f)).toNat

/-- `realloc` semantics on the byte region: keep the first
`min n l.length` bytes, new bytes are uninitialised. -/
def listResize (l : List Char) (n : Nat) : List Char :=
  l.take n ++ List.replicate (n - l.length) nulByte

/-- `reallocate_string_builder`: grows `capacity` by the growth factor and
reallocates the region to the new capacity + 1 bytes.  `realloc(NULL, n)`
behaves as `malloc(n)`. -/
def reallocate_string_builder (b : string_builder_t) : string_builder_t :=
  let newCap := grow_capacity b.capacity b.growth_factor
  { b with
    capacity := newCap
    buf := match b.buf with
           | none => some (List.replicate (newCap + 1) nulByte)
           | some l => some (listResize l (newCap + 1)) }

/-- `write_char_string_builder`: reallocate when `idx == capacity`, then
write the byte at `idx` and increment `idx`. -/
def write_char_string_builder (b : string_builder_t) (c : Char) :
    Option string_builder_t :=
  let b1 := if b.idx = b.capacity then reallocate_string_builder b else b
  match b1.buf with
  | none => none
  | some l =>
    if b1.idx < l.length then
      some { b1 with buf := some (l.set b1.idx c), idx := b1.idx + 1 }
    else none

/-- Byte-by-byte store of `src` into `l` starting at position `i`
(the semantics of `memcpy(l + i, src, src.length)`). -/
def write_seq : List Char → Nat → List Char → List Char
  | l, _, [] => l
  | l, i, c :: cs => write_seq (l.set i c) (i + 1) cs

/-- `memcpy(buf + i, src, src.length)` with its bounds obligation:
undefined (`none`) when the store would run past the allocation. -/
def store_bytes (l : List Char) (i : Nat) (src : List Char) :
    Option (List Char) :=
  if i + src.length ≤ l.length then some (write_seq l i src) else none

/-- `memcpy(builder->buf + builder->idx, src, src.length)` on the builder
state (does not advance `idx`). -/
def memcpy_builder (b : string_builder_t) (src : List Char) :
    Option string_builder_t :=
  match b.buf with
  | none => none
  | some l =>
    match store_bytes l b.idx src with
    | none => none
    | some l2 => some { b with buf := some l2 }

/-- The `while (remaining_write > 0)` loop of `write_string_builder_ranged`,
with fuel: `none` on fuel exhaustion models the loop running forever (which
the C loop does when a growth step fails to enlarge the capacity).  Each
iteration recomputes `space_left = capacity - idx`, reallocates when it is
zero, then either copies everything (when `space_left` covers the remaining
bytes) or copies exactly `space_left` bytes and continues. -/
def write_ranged_loop : Nat → string_builder_t → List Char → Option string_builder_t
  | 0, _, _ => none
  | fuel + 1, b, chars =>
    if chars = [] then some b
    else
      let space_left := b.capacity - b.idx
      let b1 := if space_left = 0 then reallocate_string_builder b else b
      if chars.length ≤ space_left then
        match memcpy_builder b1 chars with
        | none => none
        | some b2 => some { b2 with idx := b2.idx + chars.length }
      else
        match memcpy_builder b1 (chars.take space_left) with
        | none => none
        | some b2 => write_ranged_loop fuel { b2 with idx := b2.idx + space_left }
            (chars.drop space_left)

/-- `write_string_builder_ranged builder str n`: copies the first `n` bytes
of `str` (reading past the end of `str` is undefined).  `2 * n + 2` units of
fuel cover every terminating run of the C loop: an iteration either
consumes at least one byte or is a zero-copy growth iteration, and two
zero-copy iterations in a row mean the (deterministic) growth step is a
no-op, i.e. the C loop never terminates. -/
def write_string_builder_ranged (b : string_builder_t) (str : List Char)
    (n : Nat) : Option string_builder_t :=
  if n ≤ str.length then write_ranged_loop (2 * n + 2) b (str.take n) else none

/-- `strlen`: number of bytes before the first `'\0'`. -/
def c_strlen (l : List Char) : Nat :=
  (l.takeWhile (fun c => decide (c ≠ nulByte))).length

/-- `write_string_builder`: appends a null-terminated string by delegating
to the ranged write with `strlen`. -/
def write_string_builder (b : string_builder_t) (str : List Char) :
    Option string_builder_t :=
  write_string_builder_ranged b str (c_strlen str)

/-- `collect_string_builder_no_copy`: writes `'\0'` at `idx` and returns the
buffer.  The result pairs the finalized string (the bytes up to and
including the terminator) with the updated builder. -/
def collect_string_builder_no_copy (b : string_builder_t) :
    Option (List Char × string_builder_t) :=
  match b.buf with
  | none => none
  | some l =>
    if b.idx < l.length then
      some ((l.set b.idx nulByte).take (b.idx + 1),
            { b with buf := some (l.set b.idx nulByte) })
    else none

/-- `collect_string_builder`: allocates `idx + 1` bytes (failure returns
`NULL` and touches nothing), copies the first `idx` bytes of the buffer and
terminates the copy.  The builder is passed by `const` pointer and is
returned unchanged alongside the result. -/
def collect_string_builder (allocOk : Bool) (b : string_builder_t) :
    Option (Option (List Char) × string_builder_t) :=
  if allocOk = false then some (none, b)
  else
    match b.buf with
    | none => none
    | some l =>
      if b.idx ≤ l.length then some (some (l.take b.idx ++ [nulByte]), b)
      else none

/-- `destroy_string_builder`: frees the buffer and sets it to `NULL`;
returns immediately when it is already `NULL`. -/
def destroy_string_builder (b : string_builder_t) : string_builder_t :=
  match b.buf with
  | none => b
  | some _ => { b with buf := none }

/-- `reset_string_builder`: sets `idx` to 0; buffer and capacity untouched. -/
def reset_string_builder (b : string_builder_t) : string_builder_t :=
  { b with idx := 0 }

/-- `n` sequential `write_char_string_builder` calls, in order. -/
def write_chars : string_builder_t → List Char → Option string_builder_t
  | b, [] => some b
  | b, c :: cs =>
    match write_char_string_builder b c with
    | none => none
    | some b2 => write_chars b2 cs

/-! ### Helper lemmas about the growth computation -/

/-- Growing from capacity 0 yields capacity 0, whatever the factor. -/
theorem grow_capacity_zero (f : ℚ) : grow_capacity 0 f = 0 := by
  simp [grow_capacity]

/-- Growing from capacity 1 with factor 11/10 yields capacity 1: the product
is truncated back to an integer. -/
theorem grow_capacity_one_eleven_tenths : grow_capacity 1 (11 / 10) = 1 := by
  have h : Int.floor ((11 : ℚ) / 10) = 1 := by
    rw [Int.floor_eq_iff]
    norm_num
  simp [grow_capacity, h]

/-- Growing with factor 2 doubles the capacity. -/
theorem grow_capacity_two (c : Nat) : grow_capacity c 2 = 2 * c := by
  have h : ((c : ℚ) * 2) = ((2 * c : Nat) : ℚ) := by push_cast; ring
  unfold grow_capacity
  rw [h, Int.floor_natCast, Int.toNat_natCast]

/-! ### Claims C1-C4: the growth step truncates and has no strict-growth
guard, so small capacities fail to grow and later writes leave the
allocation. -/

/-- Claim C1: the spec requires the growth operation to set the new capacity
to `ceil(c * f)` and to strictly exceed `c`, with capacity 1 and factor 1.1
growing to at least 2.  Evaluating the code at that input: the growth
operation is a complete no-op — the capacity stays 1 (C truncates
`capacity * growth_factor` back to `size_t` and has no strict-growth
guard). -/
theorem reallocate_capacity_one_factor_eleven_tenths_noop :
    reallocate_string_builder
        { buf := some ['a', 'b'], idx := 1, capacity := 1, growth_factor := 11 / 10 }
      = { buf := some ['a', 'b'], idx := 1, capacity := 1, growth_factor := 11 / 10 } := by
  simp [reallocate_string_builder, grow_capacity_one_eleven_tenths, listResize]

/-- Claim C2: the spec requires `Construct(0)` then `AppendChar('x')` to grow
and then finalize to the string "x".  Evaluating the code: the growth step
leaves the capacity at 0, the character lands in the terminator slot
(`idx = 1 > capacity = 0`), and the subsequent finalize writes its
terminator one byte past the 1-byte allocation (undefined behaviour,
modelled as `none`). -/
theorem append_char_from_capacity_zero_bug :
    write_char_string_builder (init_string_builder 0 (11 / 10)) 'x'
      = some { buf := some ['x'], idx := 1, capacity := 0, growth_factor := 11 / 10 }
    ∧ Option.bind (write_char_string_builder (init_string_builder 0 (11 / 10)) 'x')
        collect_string_builder_no_copy = none := by
  constructor
  · simp [init_string_builder, write_char_string_builder, reallocate_string_builder,
      grow_capacity_zero, listResize, List.replicate]
  · simp [init_string_builder, write_char_string_builder, reallocate_string_builder,
      grow_capacity_zero, listResize, List.replicate, collect_string_builder_no_copy]

/-- Claim C3: the spec's invariant `length <= capacity` is not preserved by
`AppendChar`: on a full builder with capacity 1 and factor 1.1 the growth
step is a no-op and the write bumps `idx` to 2 while the capacity stays 1. -/
theorem append_char_breaks_length_le_capacity :
    (write_char_string_builder
        { buf := some ['a', 'b'], idx := 1, capacity := 1, growth_factor := 11 / 10 } 'y').map
        (fun s => (s.idx, s.capacity))
      = some (2, 1) := by
  simp [write_char_string_builder, reallocate_string_builder,
    grow_capacity_one_eleven_tenths, listResize]

/-- Claim C4: appending the two characters "ab" to a builder constructed
with capacity 1 and factor 1.1 leaves `idx = 2 > capacity = 1` (the growth
step for the second character is a no-op), and the subsequent finalize
writes out of bounds (`none`) instead of producing "ab". -/
theorem append_two_chars_capacity_one_finalize_oob :
    (write_chars (init_string_builder 1 (11 / 10)) ['a', 'b']).map
        (fun s => (s.idx, s.capacity)) = some (2, 1)
    ∧ Option.bind (write_chars (init_string_builder 1 (11 / 10)) ['a', 'b'])
        collect_string_builder_no_copy = none := by
  constructor
  · simp [init_string_builder, write_chars, write_char_string_builder,
      reallocate_string_builder, grow_capacity_one_eleven_tenths, listResize,
      List.replicate]
  · simp [init_string_builder, write_chars, write_char_string_builder,
      reallocate_string_builder, grow_capacity_one_eleven_tenths, listResize,
      List.replicate, collect_string_builder_no_copy]

/-! ### Claim C6: allocation failure in `collect_string_builder` -/

/-- Claim C6: when the copy allocation of `collect_string_builder` fails,
the operation returns `NULL` (here `none`) and the builder — length,
capacity and stored bytes — is returned untouched. -/
theorem collect_alloc_failure_returns_null_builder_untouched
    (b : string_builder_t) :
    collect_string_builder false b = some (none, b) := by
  simp [collect_string_builder]

/-! ### Claim C8: `destroy_string_builder` is idempotent -/

/-- Claim C8: destroying an already-released builder is a no-op, and
destroying twice equals destroying once, for every builder state. -/
theorem destroy_string_builder_idempotent (b : string_builder_t) :
    destroy_string_builder (destroy_string_builder b) = destroy_string_builder b
    ∧ (b.buf = none → destroy_string_builder b = b) := by
  constructor
  · cases hb : b.buf <;> simp [destroy_string_builder, hb]
  · intro h
    simp [destroy_string_builder, h]

/-- Witness for C8 at a concrete already-released builder. -/
theorem destroy_string_builder_idempotent_witness :
    destroy_string_builder (destroy_string_builder
        { buf := none, idx := 3, capacity := 5, growth_factor := 2 })
      = destroy_string_builder
        { buf := none, idx := 3, capacity := 5, growth_factor := 2 }
    ∧ destroy_string_builder
        { buf := none, idx := 3, capacity := 5, growth_factor := 2 }
      = { buf := none, idx := 3, capacity := 5, growth_factor := 2 } :=
  ⟨(destroy_string_builder_idempotent _).1,
   (destroy_string_builder_idempotent _).2 rfl⟩

/-! ### Helper lemmas for the ranged-write / sequential-append equivalence -/

/-- `write_seq` preserves the region's length. -/
theorem write_seq_length (src : List Char) :
    ∀ (l : List Char) (i : Nat), (write_seq l i src).length = l.length := by
  induction src with
  | nil => intro l i; rfl
  | cons c cs ih => intro l i; simp [write_seq, ih]

/-- `listResize` always yields a region of the requested length. -/
theorem listResize_length (l : List Char) (n : Nat) :
    (listResize l n).length = n := by
  simp [listResize]
  omega

/-- An in-bounds `memcpy` into the builder's region. -/
theorem memcpy_builder_eq (b : string_builder_t) (l src : List Char)
    (hbuf : b.buf = some l) (h : b.idx + src.length ≤ l.length) :
    memcpy_builder b src = some { b with buf := some (write_seq l b.idx src) } := by
  simp [memcpy_builder, store_bytes, hbuf, h]

/-- Appending a concatenation is appending the parts in sequence. -/
theorem write_chars_append (xs ys : List Char) :
    ∀ b, write_chars b (xs ++ ys)
      = Option.bind (write_chars b xs) (fun b2 => write_chars b2 ys) := by
  induction xs with
  | nil => intro b; simp [write_chars]
  | cons c cs ih =>
    intro b
    cases h : write_char_string_builder b c with
    | none => simp [write_chars, h]
    | some b2 => simp [write_chars, h, ih]

/-- A successful `write_char_string_builder` increments `idx` by one
(whether or not it reallocated first). -/
theorem write_char_idx_succ (b : string_builder_t) (c : Char)
    (b2 : string_builder_t) (h : write_char_string_builder b c = some b2) :
    b2.idx = b.idx + 1 := by
  simp only [write_char_string_builder] at h
  by_cases hc : b.idx = b.capacity
  · rw [if_pos hc] at h
    cases hbuf : (reallocate_string_builder b).buf with
    | none => simp [hbuf] at h
    | some l =>
      simp only [hbuf] at h
      by_cases hlt : (reallocate_string_builder b).idx < l.length
      · rw [if_pos hlt] at h
        cases h
        simp [reallocate_string_builder]
      · rw [if_neg hlt] at h
        cases h
  · rw [if_neg hc] at h
    cases hbuf : b.buf with
    | none => simp [hbuf] at h
    | some l =>
      simp only [hbuf] at h
      by_cases hlt : b.idx < l.length
      · rw [if_pos hlt] at h
        cases h
        rfl
      · rw [if_neg hlt] at h
        cases h

/-- A successful run of `write_chars` increases `idx` by the number of
characters appended. -/
theorem write_chars_idx_add (cs : List Char) :
    ∀ (b b2 : string_builder_t), write_chars b cs = some b2 →
      b2.idx = b.idx + cs.length := by
  induction cs with
  | nil =>
    intro b b2 h
    simp [write_chars] at h
    simp [← h]
  | cons c cs ih =>
    intro b b2 h
    rw [write_chars] at h
    cases hw : write_char_string_builder b c with
    | none => rw [hw] at h; cases h
    | some bm =>
      rw [hw] at h
      have h1 := write_char_idx_succ b c bm hw
      have h2 := ih bm b2 h
      simp [List.length_cons]
      omega

/-- Sequential appends that all fit below the capacity are a bulk
byte-by-byte store: no growth happens and `idx` advances by the length. -/
theorem write_chars_bulk (src : List Char) :
    ∀ (b : string_builder_t) (l : List Char), b.buf = some l →
      b.idx + src.length ≤ b.capacity → b.capacity < l.length →
      write_chars b src
        = some { b with buf := some (write_seq l b.idx src),
                        idx := b.idx + src.length } := by
  induction src with
  | nil =>
    intro b l hbuf _ _
    simp [write_chars, write_seq, ← hbuf]
  | cons c cs ih =>
    intro b l hbuf hle hcap
    have hne : b.idx ≠ b.capacity := by
      simp only [List.length_cons] at hle
      omega
    have hlt : b.idx < l.length := by
      simp only [List.length_cons] at hle
      omega
    have h1 : write_char_string_builder b c
        = some { b with buf := some (l.set b.idx c), idx := b.idx + 1 } := by
      simp [write_char_string_builder, hne, hbuf, hlt]
    rw [write_chars, h1]
    have h2 := ih { b with buf := some (l.set b.idx c), idx := b.idx + 1 }
      (l.set b.idx c) rfl (by simp only [List.length_cons] at hle; simp; omega)
      (by simp [hcap])
    simp only [h2, write_seq, Option.some.injEq, string_builder_t.mk.injEq,
      List.length_cons]
    simp
    omega

/-- When the buffer is exactly full, appending a character through
`write_char_string_builder` is the same as first reallocating and then
appending to the (no longer full) reallocated builder. -/
theorem write_char_after_grow (b : string_builder_t) (c : Char)
    (h : b.idx = b.capacity)
    (h2 : (reallocate_string_builder b).idx ≠ (reallocate_string_builder b).capacity) :
    write_char_string_builder b c
      = write_char_string_builder (reallocate_string_builder b) c := by
  unfold write_char_string_builder
  rw [if_pos h, if_neg h2]

/-- `write_chars` version of `write_char_after_grow`. -/
theorem write_chars_after_grow (b : string_builder_t) (c : Char) (cs : List Char)
    (h : b.idx = b.capacity)
    (h2 : (reallocate_string_builder b).idx ≠ (reallocate_string_builder b).capacity) :
    write_chars b (c :: cs)
      = write_chars (reallocate_string_builder b) (c :: cs) := by
  rw [write_chars, write_chars, write_char_after_grow b c h h2]

/-- Core equivalence: on a builder satisfying the structural invariants
(region of `capacity + 1` bytes, `idx ≤ capacity`, `capacity ≥ 1`) whose
growth step strictly enlarges every positive capacity, the ranged-write
loop computes exactly what the same characters appended one by one
compute.  Fuel `2 * length + 2` is enough for every terminating run. -/
theorem ranged_loop_eq_write_chars (len : Nat) :
    ∀ (chars : List Char) (b : string_builder_t) (l : List Char) (fuel : Nat),
      chars.length = len → b.buf = some l → l.length = b.capacity + 1 →
      b.idx ≤ b.capacity → 1 ≤ b.capacity →
      (∀ k : Nat, 1 ≤ k → k < grow_capacity k b.growth_factor) →
      2 * len + 2 ≤ fuel →
      write_ranged_loop fuel b chars = write_chars b chars := by
  induction len using Nat.strong_induction_on with
  | _ len ih =>
  intro chars b l fuel hclen hbuf hlen hidx hcap hgrow hfuel
  have step : ∀ (b' : string_builder_t) (l' : List Char) (fuel' : Nat),
      b'.buf = some l' → l'.length = b'.capacity + 1 → b'.idx < b'.capacity →
      (∀ k : Nat, 1 ≤ k → k < grow_capacity k b'.growth_factor) →
      2 * len + 1 ≤ fuel' →
      write_ranged_loop fuel' b' chars = write_chars b' chars := by
    intro b' l' fuel' hbuf' hlen' hidx' hgrow' hfuel'
    obtain ⟨f2, rfl⟩ : ∃ f2, fuel' = f2 + 1 := ⟨fuel' - 1, by omega⟩
    by_cases hnil : chars = []
    · subst hnil
      simp [write_ranged_loop, write_chars]
    · have hlen1 : 0 < chars.length := List.length_pos.mpr hnil
      have hspnz : ¬ (b'.capacity - b'.idx = 0) := by omega
      by_cases hfit : chars.length ≤ b'.capacity - b'.idx
      · have hb1 : b'.idx + chars.length ≤ l'.length := by omega
        rw [write_ranged_loop, if_neg hnil, if_pos hfit, if_neg hspnz,
          memcpy_builder_eq b' l' chars hbuf' hb1,
          write_chars_bulk chars b' l' hbuf' (by omega) (by omega)]
      · have htk : (chars.take (b'.capacity - b'.idx)).length
            = b'.capacity - b'.idx := by
          rw [List.length_take]
          omega
        have hb2 : b'.idx + (chars.take (b'.capacity - b'.idx)).length
            ≤ l'.length := by
          rw [htk]
          omega
        rw [write_ranged_loop, if_neg hnil, if_neg hfit, if_neg hspnz,
          memcpy_builder_eq b' l' _ hbuf' hb2]
        conv_rhs => rw [← List.take_append_drop (b'.capacity - b'.idx) chars]
        rw [write_chars_append,
          write_chars_bulk (chars.take (b'.capacity - b'.idx)) b' l' hbuf'
            (by rw [htk]; omega) (by omega)]
        rw [htk]
        show write_ranged_loop f2
            { b' with
              buf := some (write_seq l' b'.idx (chars.take (b'.capacity - b'.idx)))
              idx := b'.idx + (b'.capacity - b'.idx) }
            (chars.drop (b'.capacity - b'.idx))
          = write_chars
            { b' with
              buf := some (write_seq l' b'.idx (chars.take (b'.capacity - b'.idx)))
              idx := b'.idx + (b'.capacity - b'.idx) }
            (chars.drop (b'.capacity - b'.idx))
        refine ih (chars.length - (b'.capacity - b'.idx)) (by omega) _ _
          (write_seq l' b'.idx (chars.take (b'.capacity - b'.idx))) f2
          (by rw [List.length_drop]) rfl ?_ ?_ ?_ ?_ ?_
        · show (write_seq l' b'.idx _).length = b'.capacity + 1
          rw [write_seq_length]
          exact hlen'
        · show b'.idx + (b'.capacity - b'.idx) ≤ b'.capacity
          omega
        · show 1 ≤ b'.capacity
          omega
        · show ∀ k : Nat, 1 ≤ k → k < grow_capacity k b'.growth_factor
          exact hgrow'
        · omega
  by_cases hsp : b.capacity - b.idx = 0
  · by_cases hnil : chars = []
    · subst hnil
      obtain ⟨f, rfl⟩ : ∃ f, fuel = f + 1 := ⟨fuel - 1, by omega⟩
      simp [write_ranged_loop, write_chars]
    · obtain ⟨c, cs, rfl⟩ := List.exists_cons_of_ne_nil hnil
      obtain ⟨f, rfl⟩ : ∃ f, fuel = f + 1 := ⟨fuel - 1, by omega⟩
      have hfull : b.idx = b.capacity := by omega
      have hcap' : b.capacity < grow_capacity b.capacity b.growth_factor :=
        hgrow _ hcap
      have hnle : ¬ ((c :: cs).length ≤ b.capacity - b.idx) := by
        simp only [List.length_cons]
        omega
      have hre : reallocate_string_builder b
          = { buf := some (listResize l (grow_capacity b.capacity b.growth_factor + 1))
              idx := b.idx
              capacity := grow_capacity b.capacity b.growth_factor
              growth_factor := b.growth_factor } := by
        simp [reallocate_string_builder, hbuf]
      have hmc : memcpy_builder
          ({ buf := some (listResize l (grow_capacity b.capacity b.growth_factor + 1))
             idx := b.idx
             capacity := grow_capacity b.capacity b.growth_factor
             growth_factor := b.growth_factor } : string_builder_t) []
          = some { buf := some (write_seq
                    (listResize l (grow_capacity b.capacity b.growth_factor + 1))
                    b.idx [])
                   idx := b.idx
                   capacity := grow_capacity b.capacity b.growth_factor
                   growth_factor := b.growth_factor } := by
        refine memcpy_builder_eq _ _ [] rfl ?_
        rw [listResize_length]
        simp
        omega
      rw [write_ranged_loop, if_neg hnil, if_neg hnle, if_pos hsp, hre, hsp,
        List.take_zero, List.drop_zero, hmc,
        write_chars_after_grow b c cs hfull
          (by rw [hre]; show b.idx ≠ grow_capacity b.capacity b.growth_factor; omega),
        hre]
      show write_ranged_loop f
          { buf := some (listResize l (grow_capacity b.capacity b.growth_factor + 1))
            idx := b.idx
            capacity := grow_capacity b.capacity b.growth_factor
            growth_factor := b.growth_factor } (c :: cs)
        = write_chars
          { buf := some (listResize l (grow_capacity b.capacity b.growth_factor + 1))
            idx := b.idx
            capacity := grow_capacity b.capacity b.growth_factor
            growth_factor := b.growth_factor } (c :: cs)
      refine step _ (listResize l (grow_capacity b.capacity b.growth_factor + 1)) f
        rfl ?_ ?_ ?_ ?_
      · show (listResize l _).length = grow_capacity b.capacity b.growth_factor + 1
        rw [listResize_length]
      · show b.idx < grow_capacity b.capacity b.growth_factor
        omega
      · show ∀ k : Nat, 1 ≤ k → k < grow_capacity k b.growth_factor
        exact hgrow
      · omega
  · exact step b l fuel hbuf hlen (by omega) hgrow (by omega)

/-! ### Claim C5: ranged append vs sequential single-character appends -/

/-- Claim C5 counterexample: the equivalence does not hold for *every*
builder state.  On a full builder with capacity 1 and growth factor 1.1 the
growth step is a no-op, so the ranged-write loop never makes progress and
runs forever (`none`), while the same single character appended through
`AppendChar` lands in the terminator slot and yields a state. -/
theorem ranged_write_diverges_from_append_char_on_stalled_growth :
    write_string_builder_ranged
        { buf := some ['a', 'b'], idx := 1, capacity := 1, growth_factor := 11 / 10 }
        ['z'] 1 = none
    ∧ write_chars
        { buf := some ['a', 'b'], idx := 1, capacity := 1, growth_factor := 11 / 10 }
        (['z'].take 1)
      = some { buf := some ['a', 'z'], idx := 2, capacity := 1,
               growth_factor := 11 / 10 } := by
  constructor
  · simp [write_string_builder_ranged, write_ranged_loop,
      reallocate_string_builder, grow_capacity_one_eleven_tenths, listResize,
      memcpy_builder, store_bytes, write_seq]
  · simp [write_chars, write_char_string_builder, reallocate_string_builder,
      grow_capacity_one_eleven_tenths, listResize]

/-- Claim C5 (amended): for every builder state satisfying the structural
invariants (allocated region of `capacity + 1` bytes, `idx ≤ capacity`,
`capacity ≥ 1`) whose growth step strictly enlarges every positive capacity
(as the spec's growth rule guarantees), `AppendRange(str, n)` is equivalent
to the `n` sequential `AppendChar` calls on the same values: the builder
states agree, the finalized views agree, and the length grows by exactly
`n`. -/
theorem write_ranged_equals_write_chars (b : string_builder_t)
    (l str : List Char) (n : Nat)
    (hbuf : b.buf = some l) (hlen : l.length = b.capacity + 1)
    (hidx : b.idx ≤ b.capacity) (hcap : 1 ≤ b.capacity)
    (hgrow : ∀ k : Nat, 1 ≤ k → k < grow_capacity k b.growth_factor)
    (hn : n ≤ str.length) :
    write_string_builder_ranged b str n = write_chars b (str.take n)
    ∧ Option.bind (write_string_builder_ranged b str n)
        collect_string_builder_no_copy
      = Option.bind (write_chars b (str.take n)) collect_string_builder_no_copy
    ∧ (write_string_builder_ranged b str n).map (fun s => s.idx)
      = (write_string_builder_ranged b str n).map (fun _ => b.idx + n) := by
  have h1 : write_string_builder_ranged b str n = write_chars b (str.take n) := by
    rw [write_string_builder_ranged, if_pos hn]
    exact ranged_loop_eq_write_chars n (str.take n) b l (2 * n + 2)
      (by rw [List.length_take]; omega) hbuf hlen hidx hcap hgrow (le_refl _)
  refine ⟨h1, by rw [h1], ?_⟩
  cases hres : write_string_builder_ranged b str n with
  | none => rfl
  | some b2 =>
    rw [h1] at hres
    have h2 := write_chars_idx_add (str.take n) b b2 hres
    rw [List.length_take] at h2
    show some b2.idx = some (b.idx + n)
    have h3 : b2.idx = b.idx + n := by omega
    rw [h3]

/-- Witness for the amended C5: capacity 1, factor 2, appending "abc"
(the range write grows twice, once mid-range). -/
theorem write_ranged_equals_write_chars_witness :
    write_string_builder_ranged (init_string_builder 1 2) ['a', 'b', 'c'] 3
      = write_chars (init_string_builder 1 2) (['a', 'b', 'c'].take 3)
    ∧ Option.bind
        (write_string_builder_ranged (init_string_builder 1 2) ['a', 'b', 'c'] 3)
        collect_string_builder_no_copy
      = Option.bind (write_chars (init_string_builder 1 2) (['a', 'b', 'c'].take 3))
        collect_string_builder_no_copy
    ∧ (write_string_builder_ranged (init_string_builder 1 2) ['a', 'b', 'c'] 3).map
        (fun s => s.idx)
      = (write_string_builder_ranged (init_string_builder 1 2) ['a', 'b', 'c'] 3).map
        (fun _ => (init_string_builder 1 2).idx + 3) :=
  write_ranged_equals_write_chars (init_string_builder 1 2)
    (List.replicate 2 nulByte) ['a', 'b', 'c'] 3 rfl rfl (by decide) (by decide)
    (fun k hk => by
      show k < grow_capacity k 2
      rw [grow_capacity_two]
      omega)
    (by decide)

/-! ### Claim C7: `reset_string_builder` -/

/-- Claim C7: `Reset` sets the length to 0 and leaves capacity and region
untouched, and `Reset` followed by `FinalizeInPlace` yields the view
consisting of just the terminator. -/
theorem reset_then_finalize_in_place (b : string_builder_t) (l : List Char)
    (hbuf : b.buf = some l) (hne : 0 < l.length) :
    (reset_string_builder b).idx = 0
    ∧ (reset_string_builder b).capacity = b.capacity
    ∧ (reset_string_builder b).buf = b.buf
    ∧ (collect_string_builder_no_copy (reset_string_builder b)).map Prod.fst
        = some [nulByte] := by
  refine ⟨rfl, rfl, rfl, ?_⟩
  simp only [reset_string_builder, collect_string_builder_no_copy, hbuf, hne, if_pos]
  cases l with
  | nil => simp at hne
  | cons a t => simp

/-- Witness for C7 at a concrete two-byte builder. -/
theorem reset_then_finalize_in_place_witness :
    (reset_string_builder
        { buf := some ['q', 'r'], idx := 1, capacity := 1, growth_factor := 2 }).idx = 0
    ∧ (reset_string_builder
        { buf := some ['q', 'r'], idx := 1, capacity := 1, growth_factor := 2 }).capacity
      = ({ buf := some ['q', 'r'], idx := 1, capacity := 1, growth_factor := 2 }
          : string_builder_t).capacity
    ∧ (reset_string_builder
        { buf := some ['q', 'r'], idx := 1, capacity := 1, growth_factor := 2 }).buf
      = ({ buf := some ['q', 'r'], idx := 1, capacity := 1, growth_factor := 2 }
          : string_builder_t).buf
    ∧ (collect_string_builder_no_copy (reset_string_builder
        { buf := some ['q', 'r'], idx := 1, capacity := 1, growth_factor := 2 })).map
        Prod.fst = some [nulByte] :=
  reset_then_finalize_in_place _ ['q', 'r'] rfl (by decide)

/-! ### Claim C9: `collect_string_builder` never mutates the builder -/

/-- Claim C9: on success `collect_string_builder` returns a fresh copy built
from the first `idx` stored bytes with its own terminator, and the builder
(length, capacity, whole region, terminator slot included) is returned
exactly as it was. -/
theorem collect_copy_builder_untouched (b : string_builder_t) (l : List Char)
    (hbuf : b.buf = some l) (hidx : b.idx ≤ b.capacity)
    (hlen : l.length = b.capacity + 1) :
    collect_string_builder true b
      = some (some (l.take b.idx ++ [nulByte]), b) := by
  have hle : b.idx ≤ l.length := by omega
  simp [collect_string_builder, hbuf, hle]

/-- Witness for C9 at a concrete builder holding "hi". -/
theorem collect_copy_builder_untouched_witness :
    collect_string_builder true
        { buf := some ['h', 'i', '!'], idx := 2, capacity := 2, growth_factor := 2 }
      = some (some ['h', 'i', nulByte],
              { buf := some ['h', 'i', '!'], idx := 2, capacity := 2,
                growth_factor := 2 }) :=
  collect_copy_builder_untouched _ ['h', 'i', '!'] rfl (by decide) rfl

/-! ### Claim C10: `write_char_string_builder` below capacity -/

/-- Claim C10: when `idx < capacity` on entry, `AppendChar` performs no
growth: the capacity is unchanged, the byte is stored at index `idx`, `idx`
is incremented, and every byte below the old `idx` is untouched. -/
theorem append_char_below_capacity_frame (b : string_builder_t) (l : List Char)
    (c : Char) (hbuf : b.buf = some l) (hlen : l.length = b.capacity + 1)
    (hidx : b.idx < b.capacity) :
    write_char_string_builder b c
      = some { b with buf := some (l.set b.idx c), idx := b.idx + 1 }
    ∧ (l.set b.idx c).take b.idx = l.take b.idx := by
  constructor
  · have hne : b.idx ≠ b.capacity := Nat.ne_of_lt hidx
    have hlt : b.idx < l.length := by omega
    simp [write_char_string_builder, hbuf, hne, hlt]
  · rw [List.set_take]
    exact List.set_eq_of_length_le (by simp)

/-- Witness for C10: a builder of capacity 2 holding one byte. -/
theorem append_char_below_capacity_frame_witness :
    write_char_string_builder
        { buf := some ['a', 'b', 'c'], idx := 1, capacity := 2, growth_factor := 2 } 'z'
      = some { buf := some ['a', 'z', 'c'], idx := 2, capacity := 2,
               growth_factor := 2 }
    ∧ (['a', 'b', 'c'].set 1 'z').take 1 = ['a', 'b', 'c'].take 1 :=
  append_char_below_capacity_frame _ ['a', 'b', 'c'] 'z' rfl rfl (by decide)

end StringBuilder
